import Mathlib

/-!
Verification of the Stella `AudioQueue` fragment-exchange queue
(`src/common/audio/AudioQueue.cxx` in the repository; the implementation file
appears in this working copy as `src/unnamed/part_001`, lines 278-421).

The queue owns `capacity + 2` equally sized sample buffers ("fragments").
The constructor slices one contiguous buffer into `capacity + 2` fragments of
stride `sampleSize * fragmentSize`; fragment number `i` stands for the pointer
`myFragmentBuffer.get() + i * sampleSize * myFragmentSize`.  We therefore model
a fragment handle (`Int16*`) as the arena index `i : Nat`, and a nullable
handle as `Option Nat` (with `none` for `nullptr`).

C++ `throw` is modelled with `Except.error`; the single mutex only serialises
calls and has no sequential content, so operations are plain state
transformers.  The rate-limited `StaggeredLogger` member is not part of this
repository slice; what the code observably does with it is call
`myOverflowLogger.log()` on an unsuppressed overflow, which we model with the
ghost counter `overflowLogCount` recording the number of such calls.

The C++ implementation narrows the queue capacity to `uInt16` inside
`enqueue` (`const uInt16 capacity = uInt16(myFragmentQueue.size())`), which we
model faithfully with `% 65536`; theorems therefore carry the hypothesis
`capacity < 65536` (together with `0 < capacity`, without which the modulo
operations of the C++ code are undefined).
-/

/-- State of `AudioQueue` (fields of the class, with the source's `my…` names).
`myFragmentQueue` holds one fragment handle per slot; `overflowLogCount` is a
ghost counter for the number of `myOverflowLogger.log()` invocations. -/
structure AudioQueue where
  myFragmentSize : Nat
  myIsStereo : Bool
  myFragmentQueue : List Nat
  myAllFragments : List Nat
  mySize : Nat
  myNextFragment : Nat
  myFirstFragmentForEnqueue : Option Nat
  myFirstFragmentForDequeue : Option Nat
  myIgnoreOverflows : Bool
  overflowLogCount : Nat
deriving Repr, DecidableEq

/-- `AudioQueue::AudioQueue(fragmentSize, capacity, isStereo, logger)`:
queue slot `i` receives fragment `i`, the enqueue exchange slot receives
fragment `capacity`, the dequeue exchange slot fragment `capacity + 1`;
`mySize = 0`, `myNextFragment = 0`, `myIgnoreOverflows = true`. -/
def AudioQueue.init (fragmentSize capacity : Nat) (isStereo : Bool) : AudioQueue :=
  { myFragmentSize := fragmentSize
    myIsStereo := isStereo
    myFragmentQueue := List.range capacity
    myAllFragments := List.range (capacity + 2)
    mySize := 0
    myNextFragment := 0
    myFirstFragmentForEnqueue := some capacity
    myFirstFragmentForDequeue := some (capacity + 1)
    myIgnoreOverflows := true
    overflowLogCount := 0 }

/-- `AudioQueue::capacity()`. -/
def AudioQueue.capacity (q : AudioQueue) : Nat := q.myFragmentQueue.length

/-- `AudioQueue::size()` (the mutex guard has no sequential content). -/
def AudioQueue.size (q : AudioQueue) : Nat := q.mySize

/-- `AudioQueue::isStereo()`. -/
def AudioQueue.isStereo (q : AudioQueue) : Bool := q.myIsStereo

/-- `AudioQueue::fragmentSize()`. -/
def AudioQueue.fragmentSize (q : AudioQueue) : Nat := q.myFragmentSize

/-- `AudioQueue::enqueue(Int16* fragment)`.  A `none` argument is the
producer's bootstrap request served from the enqueue exchange slot; otherwise
the caller's fragment is swapped into the tail slot
`(myNextFragment + mySize) % capacity` and the previous occupant returned.
When the queue is full the head advances instead of the size growing, and the
overflow logger fires unless suppressed. -/
def AudioQueue.enqueue (q : AudioQueue) (fragment : Option Nat) :
    Except String (Nat × AudioQueue) :=
  match fragment with
  | none =>
    match q.myFirstFragmentForEnqueue with
    | none => Except.error "enqueue called empty"
    | some newFragment =>
      Except.ok (newFragment, { q with myFirstFragmentForEnqueue := none })
  | some frag =>
    let capacity := q.myFragmentQueue.length % 65536
    let fragmentIndex := (q.myNextFragment + q.mySize) % capacity
    let newFragment := q.myFragmentQueue.getD fragmentIndex 0
    if q.mySize < capacity then
      Except.ok (newFragment,
        { q with myFragmentQueue := q.myFragmentQueue.set fragmentIndex frag
                 mySize := q.mySize + 1 })
    else
      Except.ok (newFragment,
        { q with myFragmentQueue := q.myFragmentQueue.set fragmentIndex frag
                 myNextFragment := (q.myNextFragment + 1) % capacity
                 overflowLogCount :=
                   if q.myIgnoreOverflows then q.overflowLogCount
                   else q.overflowLogCount + 1 })

/-- The common tail of `AudioQueue::dequeue` after the bootstrap branch has
resolved `fragment` to a concrete handle: swap the caller's fragment into the
head slot, return the previous occupant, decrement `mySize` (the caller
guarantees `mySize ≠ 0`), advance the head modulo `myFragmentQueue.size()`. -/
def AudioQueue.dequeueSwap (q : AudioQueue) (fragment : Nat) : Nat × AudioQueue :=
  (q.myFragmentQueue.getD q.myNextFragment 0,
   { q with myFragmentQueue := q.myFragmentQueue.set q.myNextFragment fragment
            mySize := q.mySize - 1
            myNextFragment := (q.myNextFragment + 1) % q.myFragmentQueue.length })

/-- `AudioQueue::dequeue(Int16* fragment)`.  Returns `none` ("no data",
`nullptr` in C++) on an empty queue without touching anything; a `none`
argument is the consumer's bootstrap request served from the dequeue exchange
slot. -/
def AudioQueue.dequeue (q : AudioQueue) (fragment : Option Nat) :
    Except String (Option Nat × AudioQueue) :=
  if q.mySize = 0 then Except.ok (none, q)
  else
    match fragment with
    | none =>
      match q.myFirstFragmentForDequeue with
      | none => Except.error "dequeue called empty"
      | some f =>
        let p := AudioQueue.dequeueSwap { q with myFirstFragmentForDequeue := none } f
        Except.ok (some p.1, p.2)
    | some f =>
      let p := AudioQueue.dequeueSwap q f
      Except.ok (some p.1, p.2)

/-- `AudioQueue::closeSink(Int16* fragment)`: throws if a non-null fragment is
returned while the dequeue exchange slot is still occupied; otherwise stores
the fragment in the slot when the slot is empty. -/
def AudioQueue.closeSink (q : AudioQueue) (fragment : Option Nat) :
    Except String AudioQueue :=
  if q.myFirstFragmentForDequeue.isSome && fragment.isSome then
    Except.error "attempt to return unknown buffer on closeSink"
  else if q.myFirstFragmentForDequeue.isNone then
    Except.ok { q with myFirstFragmentForDequeue := fragment }
  else
    Except.ok q

/-- `AudioQueue::ignoreOverflows(bool)`. -/
def AudioQueue.ignoreOverflows (q : AudioQueue) (shouldIgnoreOverflows : Bool) :
    AudioQueue :=
  { q with myIgnoreOverflows := shouldIgnoreOverflows }

example :
    (AudioQueue.init 2 3 false).enqueue none =
      Except.ok (3, { AudioQueue.init 2 3 false with myFirstFragmentForEnqueue := none }) := rfl

example :
    ((AudioQueue.init 2 3 false).enqueue (some 3)).map (fun p => (p.1, p.2.mySize)) =
      Except.ok (0, 1) := rfl

example : (AudioQueue.init 2 3 false).dequeue (some 3) =
    Except.ok (none, AudioQueue.init 2 3 false) := rfl

/-! ### Client-visible system model: the queue plus the checked-out fragments -/

/-- The queue together with the multiset of fragment handles currently checked
out to the producer and the consumer (returned by a call and not yet handed
back). -/
structure SysState where
  queue : AudioQueue
  held : Multiset Nat
deriving DecidableEq

/-- The content of an exchange slot as a multiset (empty slot contributes
nothing). -/
def optMS (o : Option Nat) : Multiset Nat :=
  match o with
  | none => 0
  | some a => {a}

/-- Every fragment handle the system tracks: the queue slots, the two
exchange slots, and the fragments checked out to the callers. -/
def tracked (s : SysState) : Multiset Nat :=
  (s.queue.myFragmentQueue : Multiset Nat) + optMS s.queue.myFirstFragmentForEnqueue +
    optMS s.queue.myFirstFragmentForDequeue + s.held

/-- A freshly constructed queue with no fragment checked out. -/
def initSys (fragmentSize capacity : Nat) (isStereo : Bool) : SysState :=
  ⟨AudioQueue.init fragmentSize capacity isStereo, 0⟩

/-- One successful client call (`enqueue`, `dequeue` or `closeSink`), the
caller passing either `none` or a fragment it currently holds; returned
fragments become held, fragments handed over stop being held.  A `dequeue`
that reports "no data" does not consume the caller's fragment. -/
inductive SysStep : SysState → SysState → Prop where
  | enq (s : SysState) (arg : Option Nat) (r : Nat) (q' : AudioQueue)
      (hargs : ∀ f, arg = some f → f ∈ s.held)
      (h : s.queue.enqueue arg = Except.ok (r, q')) :
      SysStep s ⟨q', r ::ₘ (match arg with | none => s.held | some f => s.held.erase f)⟩
  | deq (s : SysState) (arg : Option Nat) (r : Option Nat) (q' : AudioQueue)
      (hargs : ∀ f, arg = some f → f ∈ s.held)
      (h : s.queue.dequeue arg = Except.ok (r, q')) :
      SysStep s ⟨q', match r with
                     | none => s.held
                     | some rr =>
                         rr ::ₘ (match arg with | none => s.held | some f => s.held.erase f)⟩
  | close (s : SysState) (arg : Option Nat) (q' : AudioQueue)
      (hargs : ∀ f, arg = some f → f ∈ s.held)
      (h : s.queue.closeSink arg = Except.ok q') :
      SysStep s ⟨q', match arg with | none => s.held | some f => s.held.erase f⟩

/-- States reachable from a freshly constructed queue by well-behaved
callers. -/
abbrev SysReachable (fragmentSize capacity : Nat) (isStereo : Bool) (s : SysState) : Prop :=
  Relation.ReflTransGen SysStep (initSys fragmentSize capacity isStereo) s

/-- One successful call on the bare queue, with an arbitrary argument. -/
inductive QueueStep : AudioQueue → AudioQueue → Prop where
  | enq (q : AudioQueue) (arg : Option Nat) (r : Nat) (q' : AudioQueue)
      (h : q.enqueue arg = Except.ok (r, q')) : QueueStep q q'
  | deq (q : AudioQueue) (arg : Option Nat) (r : Option Nat) (q' : AudioQueue)
      (h : q.dequeue arg = Except.ok (r, q')) : QueueStep q q'
  | close (q : AudioQueue) (arg : Option Nat) (q' : AudioQueue)
      (h : q.closeSink arg = Except.ok q') : QueueStep q q'

/-- Queue states reachable from a freshly constructed queue by any sequence of
`enqueue` / `dequeue` / `closeSink` calls. -/
abbrev QueueReachable (fragmentSize capacity : Nat) (isStereo : Bool) (q : AudioQueue) : Prop :=
  Relation.ReflTransGen QueueStep (AudioQueue.init fragmentSize capacity isStereo) q

/-! ### List and modular-arithmetic helpers -/

lemma getD_set_self (l : List Nat) (n a : Nat) (h : n < l.length) :
    (l.set n a).getD n 0 = a := by
  induction l generalizing n with
  | nil => simp at h
  | cons x xs ih =>
    cases n with
    | zero => simp
    | succ m => simpa using ih m (by simpa using h)

lemma getD_set_ne (l : List Nat) (n m a : Nat) (h : n ≠ m) :
    (l.set n a).getD m 0 = l.getD m 0 := by
  induction l generalizing n m with
  | nil => simp
  | cons x xs ih =>
    cases n with
    | zero =>
      cases m with
      | zero => exact absurd rfl h
      | succ k => simp
    | succ n0 =>
      cases m with
      | zero => simp
      | succ k => simpa using ih n0 k (by omega)

lemma getD_mem (l : List Nat) (n : Nat) (h : n < l.length) : l.getD n 0 ∈ l := by
  induction l generalizing n with
  | nil => simp at h
  | cons x xs ih =>
    cases n with
    | zero => simp
    | succ m => simpa using Or.inr (ih m (by simpa using h))

lemma set_append_getD_perm (l : List Nat) (n a : Nat) (h : n < l.length) :
    (l.set n a ++ [l.getD n 0]).Perm (l ++ [a]) := by
  induction l generalizing n with
  | nil => simp at h
  | cons x xs ih =>
    cases n with
    | zero =>
      have h1 : (xs ++ [x]).Perm (x :: xs) := List.perm_append_singleton x xs
      have h2 : (a :: xs).Perm (xs ++ [a]) := (List.perm_append_singleton a xs).symm
      simpa using (h1.cons a).trans ((List.Perm.swap x a xs).trans (h2.cons x))
    | succ m =>
      simpa using (ih m (by simpa using h)).cons x

lemma coe_set_add_getD (l : List Nat) (n a : Nat) (h : n < l.length) :
    ((l.set n a : List Nat) : Multiset Nat) + {l.getD n 0} = (l : Multiset Nat) + {a} := by
  have hp : ((l.set n a ++ [l.getD n 0] : List Nat) : Multiset Nat) =
      ((l ++ [a] : List Nat) : Multiset Nat) :=
    Multiset.coe_eq_coe.mpr (set_append_getD_perm l n a h)
  rw [← Multiset.coe_add, ← Multiset.coe_add, Multiset.coe_singleton,
    Multiset.coe_singleton] at hp
  exact hp

lemma rot_mod_inj (cap h a b : Nat) (ha : a < cap) (hb : b < cap)
    (heq : (h + a) % cap = (h + b) % cap) : a = b := by
  have h1 : a % cap = b % cap := Nat.ModEq.add_left_cancel' h heq
  rw [Nat.mod_eq_of_lt ha, Nat.mod_eq_of_lt hb] at h1
  exact h1

/-! ### Characterization of the three operations -/

lemma enqueue_none_ok (q : AudioQueue) (r : Nat) (q' : AudioQueue)
    (h : q.enqueue none = Except.ok (r, q')) :
    q.myFirstFragmentForEnqueue = some r ∧
      q' = { q with myFirstFragmentForEnqueue := none } := by
  cases hslot : q.myFirstFragmentForEnqueue with
  | none => simp [AudioQueue.enqueue, hslot] at h
  | some nf =>
    simp only [AudioQueue.enqueue, hslot, Except.ok.injEq, Prod.mk.injEq] at h
    exact ⟨congrArg some h.1, h.2.symm⟩

lemma enqueue_some_cases (q : AudioQueue) (f r : Nat) (q' : AudioQueue)
    (h : q.enqueue (some f) = Except.ok (r, q')) :
    r = q.myFragmentQueue.getD
        ((q.myNextFragment + q.mySize) % (q.myFragmentQueue.length % 65536)) 0 ∧
    ((q.mySize < q.myFragmentQueue.length % 65536 ∧
        q' = { q with
                myFragmentQueue := q.myFragmentQueue.set
                  ((q.myNextFragment + q.mySize) % (q.myFragmentQueue.length % 65536)) f
                mySize := q.mySize + 1 }) ∨
      (¬ q.mySize < q.myFragmentQueue.length % 65536 ∧
        q' = { q with
                myFragmentQueue := q.myFragmentQueue.set
                  ((q.myNextFragment + q.mySize) % (q.myFragmentQueue.length % 65536)) f
                myNextFragment := (q.myNextFragment + 1) % (q.myFragmentQueue.length % 65536)
                overflowLogCount :=
                  if q.myIgnoreOverflows then q.overflowLogCount
                  else q.overflowLogCount + 1 })) := by
  by_cases hlt : q.mySize < q.myFragmentQueue.length % 65536
  · simp only [AudioQueue.enqueue, hlt, if_true, Except.ok.injEq, Prod.mk.injEq] at h
    exact ⟨h.1.symm, Or.inl ⟨hlt, h.2.symm⟩⟩
  · simp only [AudioQueue.enqueue, hlt, if_false, Except.ok.injEq, Prod.mk.injEq] at h
    exact ⟨h.1.symm, Or.inr ⟨hlt, h.2.symm⟩⟩

lemma dequeue_zero (q : AudioQueue) (arg : Option Nat) (h : q.mySize = 0) :
    q.dequeue arg = Except.ok (none, q) := by
  simp [AudioQueue.dequeue, h]

lemma dequeue_pos_some (q : AudioQueue) (f : Nat) (h : ¬ q.mySize = 0) :
    q.dequeue (some f) =
      Except.ok (some (q.myFragmentQueue.getD q.myNextFragment 0),
        { q with
            myFragmentQueue := q.myFragmentQueue.set q.myNextFragment f
            mySize := q.mySize - 1
            myNextFragment := (q.myNextFragment + 1) % q.myFragmentQueue.length }) := by
  simp [AudioQueue.dequeue, h, AudioQueue.dequeueSwap]

lemma dequeue_pos_none (q : AudioQueue) (f0 : Nat) (h : ¬ q.mySize = 0)
    (hslot : q.myFirstFragmentForDequeue = some f0) :
    q.dequeue none =
      Except.ok (some (q.myFragmentQueue.getD q.myNextFragment 0),
        { q with
            myFirstFragmentForDequeue := none
            myFragmentQueue := q.myFragmentQueue.set q.myNextFragment f0
            mySize := q.mySize - 1
            myNextFragment := (q.myNextFragment + 1) % q.myFragmentQueue.length }) := by
  simp [AudioQueue.dequeue, h, hslot, AudioQueue.dequeueSwap]

lemma closeSink_cases (q : AudioQueue) (arg : Option Nat) (q' : AudioQueue)
    (h : q.closeSink arg = Except.ok q') :
    (q.myFirstFragmentForDequeue = none ∧
        q' = { q with myFirstFragmentForDequeue := arg }) ∨
      (q.myFirstFragmentForDequeue ≠ none ∧ arg = none ∧ q' = q) := by
  cases hslot : q.myFirstFragmentForDequeue with
  | none =>
    simp only [AudioQueue.closeSink, hslot, Option.isSome_none, Bool.false_and,
      Option.isNone_none, if_true, if_false, Bool.false_eq_true, Except.ok.injEq] at h
    exact Or.inl ⟨rfl, h.symm⟩
  | some f0 =>
    cases arg with
    | none =>
      simp only [AudioQueue.closeSink, hslot, Option.isSome_some, Option.isSome_none,
        Bool.and_false, Option.isNone_some, if_false, Bool.false_eq_true,
        Except.ok.injEq] at h
      exact Or.inr ⟨by simp, rfl, h.symm⟩
    | some f1 => simp [AudioQueue.closeSink, hslot] at h

/-! ### Shape invariant of reachable queue states -/

/-- Shape invariant of a queue constructed with depth `cap`, together with the
overflow-logging state of a queue whose `ignoreOverflows` setting was never
changed after construction. -/
structure QueueInv (cap : Nat) (q : AudioQueue) : Prop where
  hlen : q.myFragmentQueue.length = cap
  hsize : q.mySize ≤ cap
  hhead : q.myNextFragment < cap
  hflag : q.myIgnoreOverflows = true
  hlog : q.overflowLogCount = 0

lemma queueInv_init (fragmentSize cap : Nat) (isStereo : Bool) (hcap : 0 < cap) :
    QueueInv cap (AudioQueue.init fragmentSize cap isStereo) := by
  constructor <;> simp [AudioQueue.init, hcap]

lemma mod_cap_eq (cap : Nat) (q : AudioQueue) (hcap2 : cap < 65536)
    (hlen : q.myFragmentQueue.length = cap) :
    q.myFragmentQueue.length % 65536 = cap := by
  rw [hlen]
  exact Nat.mod_eq_of_lt hcap2

lemma queueInv_step (cap : Nat) (q q' : AudioQueue) (hcap : 0 < cap) (hcap2 : cap < 65536)
    (inv : QueueInv cap q) (hstep : QueueStep q q') : QueueInv cap q' := by
  have hmod := mod_cap_eq cap q hcap2 inv.hlen
  cases hstep with
  | enq arg r q' h =>
    cases arg with
    | none =>
      obtain ⟨hslot, rfl⟩ := enqueue_none_ok q r q' h
      exact ⟨inv.hlen, inv.hsize, inv.hhead, inv.hflag, inv.hlog⟩
    | some f =>
      obtain ⟨hr, hcase⟩ := enqueue_some_cases q f r q' h
      cases hcase with
      | inl hc =>
        obtain ⟨hlt, rfl⟩ := hc
        rw [hmod] at hlt
        refine ⟨by simpa using inv.hlen, ?_, inv.hhead, inv.hflag, inv.hlog⟩
        show q.mySize + 1 ≤ cap
        omega
      | inr hc =>
        obtain ⟨hge, rfl⟩ := hc
        refine ⟨by simpa using inv.hlen, inv.hsize, ?_, inv.hflag, ?_⟩
        · show (q.myNextFragment + 1) % (q.myFragmentQueue.length % 65536) < cap
          rw [hmod]
          exact Nat.mod_lt _ hcap
        · show (if q.myIgnoreOverflows then q.overflowLogCount
              else q.overflowLogCount + 1) = 0
          simp [inv.hflag, inv.hlog]
  | deq arg r q' h =>
    by_cases hz : q.mySize = 0
    · rw [dequeue_zero q arg hz] at h
      simp only [Except.ok.injEq, Prod.mk.injEq] at h
      obtain ⟨h1, rfl⟩ := h
      exact inv
    · have hfields : q'.myFragmentQueue.length = q.myFragmentQueue.length ∧
          q'.mySize = q.mySize - 1 ∧
          q'.myNextFragment = (q.myNextFragment + 1) % q.myFragmentQueue.length ∧
          q'.myIgnoreOverflows = q.myIgnoreOverflows ∧
          q'.overflowLogCount = q.overflowLogCount := by
        cases arg with
        | none =>
          cases hslot : q.myFirstFragmentForDequeue with
          | none => simp [AudioQueue.dequeue, hz, hslot] at h
          | some f0 =>
            rw [dequeue_pos_none q f0 hz hslot] at h
            simp only [Except.ok.injEq, Prod.mk.injEq] at h
            obtain ⟨h1, rfl⟩ := h
            simp
        | some f =>
          rw [dequeue_pos_some q f hz] at h
          simp only [Except.ok.injEq, Prod.mk.injEq] at h
          obtain ⟨h1, rfl⟩ := h
          simp
      obtain ⟨h1, h2, h3, h4, h5⟩ := hfields
      refine ⟨h1.trans inv.hlen, ?_, ?_, h4.trans inv.hflag, h5.trans inv.hlog⟩
      · rw [h2]
        have := inv.hsize
        omega
      · rw [h3, inv.hlen]
        exact Nat.mod_lt _ hcap
  | close arg q' h =>
    cases closeSink_cases q arg q' h with
    | inl hc =>
      obtain ⟨hslot, rfl⟩ := hc
      exact ⟨inv.hlen, inv.hsize, inv.hhead, inv.hflag, inv.hlog⟩
    | inr hc =>
      obtain ⟨hslot, harg, rfl⟩ := hc
      exact inv

lemma queueInv_reachable (fragmentSize cap : Nat) (isStereo : Bool) (q : AudioQueue)
    (hcap : 0 < cap) (hcap2 : cap < 65536)
    (h : QueueReachable fragmentSize cap isStereo q) : QueueInv cap q := by
  induction h with
  | refl => exact queueInv_init fragmentSize cap isStereo hcap
  | tail hsteps hstep ih => exact queueInv_step cap _ _ hcap hcap2 ih hstep

/-! ### Conservation of the fragment pool -/

lemma sysStep_queueStep (s s' : SysState) (h : SysStep s s') :
    QueueStep s.queue s'.queue := by
  cases h with
  | enq arg r q' hargs h => exact QueueStep.enq _ arg r q' h
  | deq arg r q' hargs h => exact QueueStep.deq _ arg r q' h
  | close arg q' hargs h => exact QueueStep.close _ arg q' h

lemma held_split (E : Multiset Nat) (f : Nat) (hf : f ∈ E) :
    ({f} : Multiset Nat) + E.erase f = E := by
  rw [Multiset.singleton_add, Multiset.cons_erase hf]

lemma shuffle_held (A B C D F : Multiset Nat) (f : Nat) (E : Multiset Nat) (hf : f ∈ E)
    (h : A + D = F + {f}) : A + B + C + (D + E.erase f) = F + B + C + E := by
  have h2 : ({f} : Multiset Nat) + E.erase f = E := held_split E f hf
  have h1 : A + B + C + (D + E.erase f) = (A + D) + (B + C + E.erase f) := by
    simp [add_comm, add_assoc, add_left_comm]
  rw [h1, h]
  have h3 : F + {f} + (B + C + E.erase f) = F + B + C + ({f} + E.erase f) := by
    simp [add_comm, add_assoc, add_left_comm]
  rw [h3, h2]

lemma shuffle2 (A B D E F G : Multiset Nat) (h : A + D = F + G) :
    A + B + 0 + (D + E) = F + B + G + E := by
  have h1 : A + B + 0 + (D + E) = (A + D) + (B + E) := by
    simp [add_comm, add_assoc, add_left_comm]
  rw [h1, h]
  simp [add_comm, add_assoc, add_left_comm]

lemma shuffle3 (A B E : Multiset Nat) (f : Nat) (hf : f ∈ E) :
    A + B + {f} + E.erase f = A + B + 0 + E := by
  have h2 : ({f} : Multiset Nat) + E.erase f = E := held_split E f hf
  have h1 : A + B + {f} + E.erase f = A + B + 0 + ({f} + E.erase f) := by
    simp [add_comm, add_assoc, add_left_comm]
  rw [h1, h2]

lemma tracked_step (cap : Nat) (s s' : SysState) (hcap : 0 < cap) (hcap2 : cap < 65536)
    (qinv : QueueInv cap s.queue) (hstep : SysStep s s') : tracked s' = tracked s := by
  have hmod := mod_cap_eq cap s.queue hcap2 qinv.hlen
  cases hstep with
  | enq arg r q' hargs h =>
    cases arg with
    | none =>
      obtain ⟨hslot, rfl⟩ := enqueue_none_ok _ r q' h
      simp only [tracked, optMS, hslot, ← Multiset.singleton_add]
      simp [add_comm, add_assoc, add_left_comm]
    | some f =>
      have hf : f ∈ s.held := hargs f rfl
      obtain ⟨hr, hcase⟩ := enqueue_some_cases _ f r q' h
      have hidx : (s.queue.myNextFragment + s.queue.mySize) %
          (s.queue.myFragmentQueue.length % 65536) < s.queue.myFragmentQueue.length := by
        rw [hmod, qinv.hlen]
        exact Nat.mod_lt _ hcap
      have hkey := coe_set_add_getD s.queue.myFragmentQueue
        ((s.queue.myNextFragment + s.queue.mySize) %
          (s.queue.myFragmentQueue.length % 65536)) f hidx
      rw [← hr] at hkey
      cases hcase with
      | inl hc =>
        obtain ⟨hlt, rfl⟩ := hc
        simp only [tracked, optMS, ← Multiset.singleton_add]
        exact shuffle_held _ _ _ _ _ f s.held hf hkey
      | inr hc =>
        obtain ⟨hge, rfl⟩ := hc
        simp only [tracked, optMS, ← Multiset.singleton_add]
        exact shuffle_held _ _ _ _ _ f s.held hf hkey
  | deq arg r q' hargs h =>
    by_cases hz : s.queue.mySize = 0
    · rw [dequeue_zero _ arg hz] at h
      simp only [Except.ok.injEq, Prod.mk.injEq] at h
      obtain ⟨h1, rfl⟩ := h
      obtain rfl := h1.symm
      rfl
    · have hidx : s.queue.myNextFragment < s.queue.myFragmentQueue.length := by
        rw [qinv.hlen]
        exact qinv.hhead
      have hkey := coe_set_add_getD s.queue.myFragmentQueue s.queue.myNextFragment
      cases arg with
      | none =>
        cases hslot : s.queue.myFirstFragmentForDequeue with
        | none => simp [AudioQueue.dequeue, hz, hslot] at h
        | some f0 =>
          rw [dequeue_pos_none _ f0 hz hslot] at h
          simp only [Except.ok.injEq, Prod.mk.injEq] at h
          obtain ⟨h1, rfl⟩ := h
          obtain rfl : r = some (s.queue.myFragmentQueue.getD s.queue.myNextFragment 0) :=
            h1.symm
          simp only [tracked, optMS, hslot, ← Multiset.singleton_add]
          exact shuffle2 _ _ _ _ _ _ (hkey f0 hidx)
      | some f =>
        have hf : f ∈ s.held := hargs f rfl
        rw [dequeue_pos_some _ f hz] at h
        simp only [Except.ok.injEq, Prod.mk.injEq] at h
        obtain ⟨h1, rfl⟩ := h
        obtain rfl : r = some (s.queue.myFragmentQueue.getD s.queue.myNextFragment 0) :=
          h1.symm
        simp only [tracked, optMS, ← Multiset.singleton_add]
        exact shuffle_held _ _ _ _ _ f s.held hf (hkey f hidx)
  | close arg q' hargs h =>
    cases closeSink_cases _ arg q' h with
    | inl hc =>
      obtain ⟨hslot, rfl⟩ := hc
      cases arg with
      | none => simp [tracked, optMS, hslot]
      | some f =>
        have hf : f ∈ s.held := hargs f rfl
        simp only [tracked, optMS, hslot]
        exact shuffle3 _ _ s.held f hf
    | inr hc =>
      obtain ⟨hslot, harg, rfl⟩ := hc
      subst harg
      rfl

/-- Full invariant of reachable system states: queue shape plus the statement
that the tracked handles are exactly the `cap + 2` pool fragments. -/
structure SysInv (cap : Nat) (s : SysState) : Prop where
  qinv : QueueInv cap s.queue
  hcons : tracked s = Multiset.range (cap + 2)

lemma sysInv_init (fragmentSize cap : Nat) (isStereo : Bool) (hcap : 0 < cap) :
    SysInv cap (initSys fragmentSize cap isStereo) := by
  refine ⟨queueInv_init fragmentSize cap isStereo hcap, ?_⟩
  show ((List.range cap : List Nat) : Multiset Nat) + optMS (some cap) +
      optMS (some (cap + 1)) + 0 = Multiset.range (cap + 2)
  have h2 : cap + 2 = (cap + 1) + 1 := rfl
  have hr : Multiset.range cap = ((List.range cap : List Nat) : Multiset Nat) := rfl
  rw [h2, Multiset.range_succ, Multiset.range_succ, hr,
    ← Multiset.singleton_add, ← Multiset.singleton_add]
  simp [optMS, add_comm, add_assoc, add_left_comm]

lemma sysInv_step (cap : Nat) (s s' : SysState) (hcap : 0 < cap) (hcap2 : cap < 65536)
    (inv : SysInv cap s) (hstep : SysStep s s') : SysInv cap s' :=
  ⟨queueInv_step cap s.queue s'.queue hcap hcap2 inv.qinv (sysStep_queueStep s s' hstep),
   (tracked_step cap s s' hcap hcap2 inv.qinv hstep).trans inv.hcons⟩

lemma sysInv_reachable (fragmentSize cap : Nat) (isStereo : Bool) (s : SysState)
    (hcap : 0 < cap) (hcap2 : cap < 65536)
    (h : SysReachable fragmentSize cap isStereo s) : SysInv cap s := by
  induction h with
  | refl => exact sysInv_init fragmentSize cap isStereo hcap
  | tail hsteps hstep ih => exact sysInv_step cap _ _ hcap hcap2 ih hstep

lemma nodup_add_ne (a b : Multiset Nat) (h : (a + b).Nodup) (x : Nat)
    (hx : x ∈ a) (hy : x ∈ b) : False := by
  have hcount := Multiset.nodup_iff_count_le_one.mp h x
  rw [Multiset.count_add] at hcount
  have h1 := Multiset.count_pos.mpr hx
  have h2 := Multiset.count_pos.mpr hy
  omega

lemma queue_elem_not_held (cap : Nat) (s : SysState)
    (hcons : tracked s = Multiset.range (cap + 2)) (x f : Nat)
    (hx : x ∈ s.queue.myFragmentQueue) (hf : f ∈ s.held) : x ≠ f := by
  rintro rfl
  have hnd : (tracked s).Nodup := by rw [hcons]; exact Multiset.nodup_range _
  simp only [tracked] at hnd
  refine nodup_add_ne ((s.queue.myFragmentQueue : Multiset Nat) +
      optMS s.queue.myFirstFragmentForEnqueue + optMS s.queue.myFirstFragmentForDequeue)
    s.held hnd x ?_ hf
  exact Multiset.mem_add.mpr (Or.inl (Multiset.mem_add.mpr (Or.inl (Multiset.mem_coe.mpr hx))))

/-! ### Abstraction to a reference FIFO with drop-oldest overflow -/

/-- The logical content of the circular queue: the `mySize` filled fragments
in oldest-first order, starting at the head index `myNextFragment`. -/
def absQueue (q : AudioQueue) : List Nat :=
  (List.range q.mySize).map
    (fun i => q.myFragmentQueue.getD ((q.myNextFragment + i) % q.myFragmentQueue.length) 0)

/-- Modelled from the spec: the reference bounded FIFO with drop-oldest
overflow ("enqueueing into a full queue drops exactly the oldest queued
fragment").  First component: the queue after the enqueue; second component:
the dropped element, if any. -/
def refEnqueue (cap : Nat) (l : List Nat) (f : Nat) : List Nat × Option Nat :=
  if l.length < cap then (l ++ [f], none)
  else
    match l with
    | [] => ([f], none)
    | x :: xs => (xs ++ [f], some x)

/-- Modelled from the spec: dequeuing from the reference FIFO pops the oldest
element; on an empty queue it reports "no data" and changes nothing. -/
def refDequeue (l : List Nat) : Option Nat × List Nat :=
  match l with
  | [] => (none, [])
  | x :: xs => (some x, xs)

lemma absQueue_length (q : AudioQueue) : (absQueue q).length = q.mySize := by
  simp [absQueue]

lemma absQueue_cons (cap : Nat) (q : AudioQueue) (hlen : q.myFragmentQueue.length = cap)
    (hhead : q.myNextFragment < cap) (hpos : 0 < q.mySize) :
    absQueue q = q.myFragmentQueue.getD q.myNextFragment 0 ::
      (List.range (q.mySize - 1)).map
        (fun i => q.myFragmentQueue.getD ((q.myNextFragment + 1 + i) % cap) 0) := by
  have hs : q.mySize = (q.mySize - 1) + 1 := by omega
  rw [absQueue, hlen, hs, List.range_succ_eq_map, List.map_cons, List.map_map]
  refine congrArg₂ List.cons ?_ ?_
  · rw [Nat.add_zero, Nat.mod_eq_of_lt hhead]
  · refine List.map_congr_left ?_
    intro i hi
    simp only [Function.comp_apply]
    rw [show q.myNextFragment + Nat.succ i = q.myNextFragment + 1 + i by omega]

lemma absQueue_shift (cap : Nat) (q q' : AudioQueue) (hcap : 0 < cap)
    (hlen : q.myFragmentQueue.length = cap) (hhead : q.myNextFragment < cap)
    (hpos : 0 < q.mySize) (hsize : q.mySize ≤ cap) (fIn : Nat)
    (hfq : q'.myFragmentQueue = q.myFragmentQueue.set q.myNextFragment fIn)
    (hsz : q'.mySize = q.mySize - 1)
    (hhd : q'.myNextFragment = (q.myNextFragment + 1) % cap) :
    absQueue q' = (absQueue q).tail := by
  have hlen' : q'.myFragmentQueue.length = cap := by rw [hfq, List.length_set, hlen]
  rw [absQueue, hlen', hsz, hhd, hfq]
  rw [absQueue_cons cap q hlen hhead hpos, List.tail_cons]
  refine List.map_congr_left ?_
  intro i hi
  have hi' : i < q.mySize - 1 := List.mem_range.mp hi
  have hidx : ((q.myNextFragment + 1) % cap + i) % cap = (q.myNextFragment + 1 + i) % cap :=
    Nat.mod_add_mod _ _ _
  rw [hidx]
  refine getD_set_ne _ _ _ _ ?_
  intro heq
  have heq' : (q.myNextFragment + 0) % cap = (q.myNextFragment + (1 + i)) % cap := by
    rw [Nat.add_zero, Nat.mod_eq_of_lt hhead, heq]
    congr 1
    omega
  have h01 := rot_mod_inj cap q.myNextFragment 0 (1 + i) hcap (by omega) heq'
  omega

lemma absQueue_enqueue_notfull (cap : Nat) (q : AudioQueue) (f : Nat) (hcap : 0 < cap)
    (hcap2 : cap < 65536) (hlen : q.myFragmentQueue.length = cap)
    (hlt : q.mySize < cap) (r : Nat) (q' : AudioQueue)
    (h : q.enqueue (some f) = Except.ok (r, q')) :
    absQueue q' = absQueue q ++ [f] := by
  have hmod := mod_cap_eq cap q hcap2 hlen
  obtain ⟨hr, hcase⟩ := enqueue_some_cases q f r q' h
  rw [hmod] at hcase
  cases hcase with
  | inr hc => exact absurd hlt hc.1
  | inl hc =>
    obtain ⟨hlt2, rfl⟩ := hc
    simp only [absQueue, List.length_set, hlen]
    rw [List.range_succ, List.map_append]
    refine congrArg₂ (· ++ ·) ?_ ?_
    · refine List.map_congr_left ?_
      intro i hi
      have hi' : i < q.mySize := List.mem_range.mp hi
      refine getD_set_ne _ _ _ _ ?_
      intro heq
      have := rot_mod_inj cap q.myNextFragment q.mySize i hlt (by omega) heq
      omega
    · simp only [List.map_cons, List.map_nil]
      refine congrArg₂ List.cons ?_ rfl
      refine getD_set_self _ _ _ ?_
      rw [hlen]
      exact Nat.mod_lt _ hcap

lemma absQueue_enqueue_full (cap : Nat) (q : AudioQueue) (f : Nat) (hcap : 0 < cap)
    (hcap2 : cap < 65536) (hlen : q.myFragmentQueue.length = cap)
    (hhead : q.myNextFragment < cap) (hfull : q.mySize = cap) (r : Nat) (q' : AudioQueue)
    (h : q.enqueue (some f) = Except.ok (r, q')) :
    r = q.myFragmentQueue.getD q.myNextFragment 0 ∧
      absQueue q' = (absQueue q).tail ++ [f] := by
  have hmod := mod_cap_eq cap q hcap2 hlen
  have hidx : (q.myNextFragment + q.mySize) % cap = q.myNextFragment := by
    rw [hfull, Nat.add_mod_right]
    exact Nat.mod_eq_of_lt hhead
  obtain ⟨hr, hcase⟩ := enqueue_some_cases q f r q' h
  rw [hmod, hidx] at hr
  rw [hmod, hidx] at hcase
  refine ⟨hr, ?_⟩
  cases hcase with
  | inl hc => exact absurd hc.1 (by omega)
  | inr hc =>
    obtain ⟨hge, rfl⟩ := hc
    rw [absQueue_cons cap q hlen hhead (by omega), List.tail_cons]
    simp only [absQueue, List.length_set, hlen, hfull]
    have hc1 : cap = (cap - 1) + 1 := by omega
    rw [hc1, List.range_succ, List.map_append]
    rw [← hc1]
    refine congrArg₂ (· ++ ·) ?_ ?_
    · refine List.map_congr_left ?_
      intro i hi
      have hi' : i < cap - 1 := List.mem_range.mp hi
      rw [Nat.mod_add_mod]
      refine getD_set_ne _ _ _ _ ?_
      intro heq
      have heq' : (q.myNextFragment + 0) % cap = (q.myNextFragment + (1 + i)) % cap := by
        rw [Nat.add_zero, Nat.mod_eq_of_lt hhead, heq]
        congr 1
        omega
      have := rot_mod_inj cap q.myNextFragment 0 (1 + i) hcap (by omega) heq'
      omega
    · simp only [List.map_cons, List.map_nil]
      refine congrArg₂ List.cons ?_ rfl
      have hlast : ((q.myNextFragment + 1) % cap + (cap - 1)) % cap = q.myNextFragment := by
        rw [Nat.mod_add_mod,
          show q.myNextFragment + 1 + (cap - 1) = q.myNextFragment + cap by omega,
          Nat.add_mod_right]
        exact Nat.mod_eq_of_lt hhead
      rw [hlast]
      refine getD_set_self _ _ _ ?_
      rw [hlen]
      exact hhead

lemma absQueue_dequeueSwap (cap : Nat) (q : AudioQueue) (fIn : Nat) (hcap : 0 < cap)
    (hlen : q.myFragmentQueue.length = cap) (hhead : q.myNextFragment < cap)
    (hpos : 0 < q.mySize) (hsize : q.mySize ≤ cap) :
    absQueue (q.dequeueSwap fIn).2 = (absQueue q).tail := by
  refine absQueue_shift cap q (q.dequeueSwap fIn).2 hcap hlen hhead hpos hsize fIn rfl rfl ?_
  show (q.myNextFragment + 1) % q.myFragmentQueue.length = (q.myNextFragment + 1) % cap
  rw [hlen]

lemma dequeue_abs (cap : Nat) (q : AudioQueue) (arg : Option Nat) (hcap : 0 < cap)
    (hlen : q.myFragmentQueue.length = cap) (hhead : q.myNextFragment < cap)
    (hsize : q.mySize ≤ cap) (r : Option Nat) (q' : AudioQueue)
    (h : q.dequeue arg = Except.ok (r, q')) :
    r = (refDequeue (absQueue q)).1 ∧ absQueue q' = (refDequeue (absQueue q)).2 := by
  by_cases hz : q.mySize = 0
  · rw [dequeue_zero q arg hz] at h
    simp only [Except.ok.injEq, Prod.mk.injEq] at h
    obtain ⟨h1, rfl⟩ := h
    have habs : absQueue q = [] := by simp [absQueue, hz]
    rw [habs]
    exact ⟨h1.symm, rfl⟩
  · have hpos : 0 < q.mySize := Nat.pos_of_ne_zero hz
    have hcons := absQueue_cons cap q hlen hhead hpos
    cases arg with
    | some f =>
      rw [dequeue_pos_some q f hz] at h
      simp only [Except.ok.injEq, Prod.mk.injEq] at h
      obtain ⟨h1, rfl⟩ := h
      have hshift : absQueue (q.dequeueSwap f).2 = (absQueue q).tail :=
        absQueue_dequeueSwap cap q f hcap hlen hhead hpos hsize
      constructor
      · rw [hcons]
        exact h1.symm
      · show absQueue (q.dequeueSwap f).2 = _
        rw [hshift, hcons, List.tail_cons]
        rfl
    | none =>
      cases hslot : q.myFirstFragmentForDequeue with
      | none => simp [AudioQueue.dequeue, hz, hslot] at h
      | some f0 =>
        rw [dequeue_pos_none q f0 hz hslot] at h
        simp only [Except.ok.injEq, Prod.mk.injEq] at h
        obtain ⟨h1, rfl⟩ := h
        have hshift : absQueue
            (({ q with myFirstFragmentForDequeue := none } : AudioQueue).dequeueSwap f0).2 =
            (absQueue { q with myFirstFragmentForDequeue := none }).tail :=
          absQueue_dequeueSwap cap { q with myFirstFragmentForDequeue := none } f0
            hcap hlen hhead hpos hsize
        constructor
        · rw [hcons]
          exact h1.symm
        · show absQueue
            (({ q with myFirstFragmentForDequeue := none } : AudioQueue).dequeueSwap f0).2 = _
          rw [hshift]
          have habs2 : absQueue { q with myFirstFragmentForDequeue := none } = absQueue q := rfl
          rw [habs2, hcons, List.tail_cons]
          rfl

lemma absQueue_enqueue_none (q : AudioQueue) (r : Nat) (q' : AudioQueue)
    (h : q.enqueue none = Except.ok (r, q')) : absQueue q' = absQueue q := by
  obtain ⟨hslot, rfl⟩ := enqueue_none_ok q r q' h
  rfl

lemma absQueue_closeSink (q : AudioQueue) (arg : Option Nat) (q' : AudioQueue)
    (h : q.closeSink arg = Except.ok q') : absQueue q' = absQueue q := by
  cases closeSink_cases q arg q' h with
  | inl hc =>
    obtain ⟨hslot, rfl⟩ := hc
    rfl
  | inr hc =>
    obtain ⟨h1, h2, rfl⟩ := hc
    rfl

lemma enqueue_some_notfull_eq (q : AudioQueue) (f : Nat)
    (hlt : q.mySize < q.myFragmentQueue.length % 65536) :
    q.enqueue (some f) =
      Except.ok (q.myFragmentQueue.getD
          ((q.myNextFragment + q.mySize) % (q.myFragmentQueue.length % 65536)) 0,
        { q with
            myFragmentQueue := q.myFragmentQueue.set
              ((q.myNextFragment + q.mySize) % (q.myFragmentQueue.length % 65536)) f
            mySize := q.mySize + 1 }) := by
  simp [AudioQueue.enqueue, hlt]

lemma enqueue_some_full_eq (q : AudioQueue) (f : Nat)
    (hge : ¬ q.mySize < q.myFragmentQueue.length % 65536) :
    q.enqueue (some f) =
      Except.ok (q.myFragmentQueue.getD
          ((q.myNextFragment + q.mySize) % (q.myFragmentQueue.length % 65536)) 0,
        { q with
            myFragmentQueue := q.myFragmentQueue.set
              ((q.myNextFragment + q.mySize) % (q.myFragmentQueue.length % 65536)) f
            myNextFragment := (q.myNextFragment + 1) % (q.myFragmentQueue.length % 65536)
            overflowLogCount :=
              if q.myIgnoreOverflows then q.overflowLogCount
              else q.overflowLogCount + 1 }) := by
  simp [AudioQueue.enqueue, hge]

/-! ### The claims -/

/-- C1: Conservation — starting from a freshly constructed queue with
parameters `fragmentSize`, `capacity`, `isStereo`, after every sequence of
`enqueue` / `dequeue` / `closeSink` calls by well-behaved callers, the
multiset of fragment handles partitioned among the queue slots, the two
exchange slots, and the fragments checked out to the producer and consumer
is exactly the pool `{0, …, capacity + 1}`: it has `capacity + 2` distinct
members — no handle is duplicated, dropped, or handed out twice. -/
theorem audioQueue_conservation (fragmentSize capacity : Nat) (isStereo : Bool)
    (s : SysState) (hcap : 0 < capacity) (hcap2 : capacity < 65536)
    (hreach : SysReachable fragmentSize capacity isStereo s) :
    tracked s = Multiset.range (capacity + 2) ∧
      Multiset.card (tracked s) = capacity + 2 ∧ (tracked s).Nodup := by
  have hinv := sysInv_reachable fragmentSize capacity isStereo s hcap hcap2 hreach
  refine ⟨hinv.hcons, ?_, ?_⟩
  · rw [hinv.hcons, Multiset.card_range]
  · rw [hinv.hcons]
    exact Multiset.nodup_range _

/-- Witness for C1: the freshly constructed queue with fragmentSize 2,
capacity 3, mono. -/
theorem audioQueue_conservation_witness :
    tracked (initSys 2 3 false) = Multiset.range (3 + 2) ∧
      Multiset.card (tracked (initSys 2 3 false)) = 3 + 2 ∧
      (tracked (initSys 2 3 false)).Nodup :=
  audioQueue_conservation 2 3 false (initSys 2 3 false) (by decide) (by decide)
    Relation.ReflTransGen.refl

/-- C2: Capacity invariant — after every sequence of `enqueue`, `dequeue`
and `closeSink` calls on a queue constructed with depth `capacity`,
`0 ≤ size()` and `size() ≤ capacity()` hold. -/
theorem audioQueue_capacity_invariant (fragmentSize capacity : Nat) (isStereo : Bool)
    (q : AudioQueue) (hcap : 0 < capacity) (hcap2 : capacity < 65536)
    (hreach : QueueReachable fragmentSize capacity isStereo q) :
    0 ≤ q.size ∧ q.size ≤ q.capacity := by
  have hinv := queueInv_reachable fragmentSize capacity isStereo q hcap hcap2 hreach
  constructor
  · exact Nat.zero_le _
  · rw [AudioQueue.size, AudioQueue.capacity, hinv.hlen]
    exact hinv.hsize

/-- Witness for C2 at the freshly constructed queue. -/
theorem audioQueue_capacity_invariant_witness :
    0 ≤ (AudioQueue.init 2 3 false).size ∧
      (AudioQueue.init 2 3 false).size ≤ (AudioQueue.init 2 3 false).capacity :=
  audioQueue_capacity_invariant 2 3 false (AudioQueue.init 2 3 false) (by decide)
    (by decide) Relation.ReflTransGen.refl

/-- C3: Overflow drop semantics — in every queue state with
`size = capacity` (well-formed head index, representable capacity),
`enqueue` with a non-empty fragment keeps `size = capacity` (never
`capacity + 1`), returns the handle of the logically oldest queued fragment
(the head slot, also the head of the abstract queue — the fragment being
dropped), stores the caller's fragment in its place, and advances the head
index by one modulo `capacity`; in every state with `size < capacity` the
same call instead increments `size` by one and does not move the head. -/
theorem audioQueue_overflow_drop (capacity : Nat) (q : AudioQueue) (f : Nat)
    (hlen : q.myFragmentQueue.length = capacity) (hcap : 0 < capacity)
    (hcap2 : capacity < 65536) (hhead : q.myNextFragment < capacity) :
    (q.mySize = capacity →
      (absQueue q).head? = some (q.myFragmentQueue.getD q.myNextFragment 0) ∧
      ∃ q', q.enqueue (some f) =
          Except.ok (q.myFragmentQueue.getD q.myNextFragment 0, q') ∧
        q'.mySize = capacity ∧
        q'.myNextFragment = (q.myNextFragment + 1) % capacity ∧
        q'.myFragmentQueue = q.myFragmentQueue.set q.myNextFragment f) ∧
    (q.mySize < capacity →
      ∃ r q', q.enqueue (some f) = Except.ok (r, q') ∧
        q'.mySize = q.mySize + 1 ∧ q'.myNextFragment = q.myNextFragment) := by
  have hmod := mod_cap_eq capacity q hcap2 hlen
  constructor
  · intro hfull
    have hidx : (q.myNextFragment + q.mySize) % (q.myFragmentQueue.length % 65536) =
        q.myNextFragment := by
      rw [hmod, hfull, Nat.add_mod_right]
      exact Nat.mod_eq_of_lt hhead
    have hge : ¬ q.mySize < q.myFragmentQueue.length % 65536 := by
      rw [hmod]
      omega
    have heq := enqueue_some_full_eq q f hge
    rw [hidx] at heq
    constructor
    · rw [absQueue_cons capacity q hlen hhead (by omega)]
      rfl
    · refine ⟨_, heq, hfull, ?_, rfl⟩
      show (q.myNextFragment + 1) % (q.myFragmentQueue.length % 65536) =
        (q.myNextFragment + 1) % capacity
      rw [hmod]
  · intro hlt
    have hlt' : q.mySize < q.myFragmentQueue.length % 65536 := by
      rw [hmod]
      exact hlt
    exact ⟨_, _, enqueue_some_notfull_eq q f hlt', rfl, rfl⟩

/-- A concrete full queue with capacity 2 used to witness C3: slots hold
fragments 10 and 11, head at index 1 (fragment 11 is the oldest). -/
def qFull : AudioQueue :=
  { myFragmentSize := 1
    myIsStereo := false
    myFragmentQueue := [10, 11]
    myAllFragments := [10, 11, 12, 13]
    mySize := 2
    myNextFragment := 1
    myFirstFragmentForEnqueue := some 12
    myFirstFragmentForDequeue := some 13
    myIgnoreOverflows := true
    overflowLogCount := 0 }

/-- Witness for C3: enqueueing fragment 42 into the full queue `qFull` drops
and returns the oldest fragment 11, stores 42 in its slot, keeps size 2 and
advances the head to 0. -/
theorem audioQueue_overflow_drop_witness :
    ∃ q', qFull.enqueue (some 42) = Except.ok (11, q') ∧
      q'.mySize = 2 ∧ q'.myNextFragment = 0 ∧ q'.myFragmentQueue = [10, 42] := by
  obtain ⟨hhd, q', h1, h2, h3, h4⟩ :=
    (audioQueue_overflow_drop 2 qFull 42 rfl (by decide) (by decide) (by decide)).1 rfl
  exact ⟨q', h1, h2, h3, h4⟩

/-- C4: Underflow semantics and atomicity — `dequeue` on a queue with
`size() = 0` returns the "no data" result (`none`) and returns the entire
queue state unchanged, for every argument (empty or not); in particular the
dequeue bootstrap slot is not consumed and no error is raised. -/
theorem audioQueue_underflow_noop (q : AudioQueue) (arg : Option Nat)
    (hz : q.size = 0) : q.dequeue arg = Except.ok (none, q) :=
  dequeue_zero q arg hz

/-- Witness for C4: a fresh queue with an arbitrary non-empty argument. -/
theorem audioQueue_underflow_noop_witness :
    (AudioQueue.init 2 3 false).dequeue (some 5) =
      Except.ok (none, AudioQueue.init 2 3 false) :=
  audioQueue_underflow_noop (AudioQueue.init 2 3 false) (some 5) rfl

/-- The system state after the producer's bootstrap call on a fresh queue
with fragmentSize 2, capacity 3, mono: the producer holds fragment 3, the
queue is still empty. -/
def cexSys : SysState :=
  ⟨{ AudioQueue.init 2 3 false with myFirstFragmentForEnqueue := none }, {3}⟩

lemma cexSys_reachable : SysReachable 2 3 false cexSys := by
  refine Relation.ReflTransGen.single ?_
  have h := SysStep.enq (initSys 2 3 false) none 3 cexSys.queue
    (by intro f hf; cases hf) rfl
  simpa using h

/-- C5 counterexample: in the reachable state `cexSys` the call
`dequeue (some 3)` — whose argument is non-empty and held by the caller —
returns zero fragment handles (the "no data" result `none`), refuting the
claim that every `dequeue` call with a non-empty argument returns exactly
one fragment handle in every reachable state. -/
theorem audioQueue_one_for_one_counterexample :
    SysReachable 2 3 false cexSys ∧ (3 : Nat) ∈ cexSys.held ∧
      cexSys.queue.dequeue (some 3) = Except.ok (none, cexSys.queue) :=
  ⟨cexSys_reachable, by decide, rfl⟩

/-- C5 (amended): in every reachable system state with the caller holding
the non-empty fragment `f`, `enqueue f` returns exactly one fragment handle
distinct from `f`; `dequeue f` returns exactly one fragment handle distinct
from `f` whenever the queue is non-empty, and on an empty queue instead
returns the "no data" result, leaving the state unchanged and the caller's
fragment with the caller (the single exception to one-for-one exchange). -/
theorem audioQueue_one_for_one_amended (fragmentSize capacity : Nat) (isStereo : Bool)
    (s : SysState) (f : Nat) (hcap : 0 < capacity) (hcap2 : capacity < 65536)
    (hreach : SysReachable fragmentSize capacity isStereo s) (hf : f ∈ s.held) :
    (∃ r q', s.queue.enqueue (some f) = Except.ok (r, q') ∧ r ≠ f) ∧
    (s.queue.mySize ≠ 0 →
      ∃ r q', s.queue.dequeue (some f) = Except.ok (some r, q') ∧ r ≠ f) ∧
    (s.queue.mySize = 0 → s.queue.dequeue (some f) = Except.ok (none, s.queue)) := by
  have hinv := sysInv_reachable fragmentSize capacity isStereo s hcap hcap2 hreach
  have hmod := mod_cap_eq capacity s.queue hcap2 hinv.qinv.hlen
  refine ⟨?_, ?_, fun hz => dequeue_zero s.queue (some f) hz⟩
  · have hne : s.queue.myFragmentQueue.getD
        ((s.queue.myNextFragment + s.queue.mySize) %
          (s.queue.myFragmentQueue.length % 65536)) 0 ≠ f := by
      refine queue_elem_not_held capacity s hinv.hcons _ f ?_ hf
      refine getD_mem _ _ ?_
      rw [hmod, hinv.qinv.hlen]
      exact Nat.mod_lt _ hcap
    by_cases hlt : s.queue.mySize < s.queue.myFragmentQueue.length % 65536
    · exact ⟨_, _, enqueue_some_notfull_eq s.queue f hlt, hne⟩
    · exact ⟨_, _, enqueue_some_full_eq s.queue f hlt, hne⟩
  · intro hz
    refine ⟨_, _, dequeue_pos_some s.queue f hz, ?_⟩
    refine queue_elem_not_held capacity s hinv.hcons _ f ?_ hf
    refine getD_mem _ _ ?_
    rw [hinv.qinv.hlen]
    exact hinv.qinv.hhead

/-- Witness for the amended C5 at the reachable state `cexSys`. -/
theorem audioQueue_one_for_one_witness :
    ∃ r q', cexSys.queue.enqueue (some 3) = Except.ok (r, q') ∧ r ≠ 3 :=
  (audioQueue_one_for_one_amended 2 3 false cexSys 3 (by decide) (by decide)
    cexSys_reachable (by decide)).1

/-- C6: FIFO ordering — the circular-buffer implementation is in simulation
with the reference FIFO-with-drop-oldest queue through the abstraction
`absQueue`: a non-empty `enqueue` acts as the reference enqueue, and the
fragment it hands back to the producer is exactly the reference's dropped
oldest element precisely when the queue is full; every successful `dequeue`
returns the reference's oldest element and leaves the reference tail; the
bootstrap `enqueue none` and `closeSink` leave the queue content unchanged.
Hence successful dequeues return the enqueued fragments in enqueue order
with exactly the overflow-dropped fragments removed. -/
theorem audioQueue_fifo_simulation (capacity : Nat) (q : AudioQueue) (f : Nat)
    (hlen : q.myFragmentQueue.length = capacity) (hcap : 0 < capacity)
    (hcap2 : capacity < 65536) (hhead : q.myNextFragment < capacity)
    (hsize : q.mySize ≤ capacity) :
    (∀ r q', q.enqueue (some f) = Except.ok (r, q') →
      absQueue q' = (refEnqueue capacity (absQueue q) f).1 ∧
        (refEnqueue capacity (absQueue q) f).2 =
          (if q.mySize = capacity then some r else none)) ∧
    (∀ arg r q', q.dequeue arg = Except.ok (r, q') →
      r = (refDequeue (absQueue q)).1 ∧ absQueue q' = (refDequeue (absQueue q)).2) ∧
    (∀ r q', q.enqueue none = Except.ok (r, q') → absQueue q' = absQueue q) ∧
    (∀ arg q', q.closeSink arg = Except.ok q' → absQueue q' = absQueue q) := by
  refine ⟨?_, ?_, ?_, ?_⟩
  · intro r q' h
    by_cases hfull : q.mySize = capacity
    · obtain ⟨hr, habs⟩ :=
        absQueue_enqueue_full capacity q f hcap hcap2 hlen hhead hfull r q' h
      have hlenabs : (absQueue q).length = capacity := by
        rw [absQueue_length, hfull]
      have hconsq := absQueue_cons capacity q hlen hhead (by omega)
      have hrefq : refEnqueue capacity (absQueue q) f =
          ((absQueue q).tail ++ [f],
            some (q.myFragmentQueue.getD q.myNextFragment 0)) := by
        rw [refEnqueue.eq_def, if_neg (by rw [hlenabs]; omega), hconsq]
        rfl
      constructor
      · rw [habs, hrefq]
      · rw [hrefq, if_pos hfull, hr]
    · have hlt : q.mySize < capacity := by
        have := hsize
        omega
      have habs :=
        absQueue_enqueue_notfull capacity q f hcap hcap2 hlen hlt r q' h
      have hrefq : refEnqueue capacity (absQueue q) f = (absQueue q ++ [f], none) := by
        rw [refEnqueue.eq_def, if_pos (by rw [absQueue_length]; omega)]
      constructor
      · rw [habs, hrefq]
      · rw [hrefq, if_neg hfull]
  · intro arg r q' h
    exact dequeue_abs capacity q arg hcap hlen hhead hsize r q' h
  · intro r q' h
    exact absQueue_enqueue_none q r q' h
  · intro arg q' h
    exact absQueue_closeSink q arg q' h

/-- The queue state after enqueueing fragment 7 into a fresh
fragmentSize 2 / capacity 3 / mono queue. -/
def qEnq1 : AudioQueue :=
  { AudioQueue.init 2 3 false with myFragmentQueue := [7, 1, 2], mySize := 1 }

/-- Witness for C6: enqueueing fragment 7 into the fresh queue matches the
reference FIFO (appended, nothing dropped). -/
theorem audioQueue_fifo_simulation_witness :
    absQueue qEnq1 = (refEnqueue 3 (absQueue (AudioQueue.init 2 3 false)) 7).1 ∧
      (refEnqueue 3 (absQueue (AudioQueue.init 2 3 false)) 7).2 =
        (if (AudioQueue.init 2 3 false).mySize = 3 then some 0 else none) :=
  (audioQueue_fifo_simulation 3 (AudioQueue.init 2 3 false) 7 rfl (by decide)
    (by decide) (by decide) (by decide)).1 0 qEnq1 rfl

/-- C7: Raises-iff for protocol violations — across the three operations, an
exception is raised exactly when (1) `enqueue` receives an empty fragment
while the enqueue exchange slot is already empty, (2) `dequeue` receives an
empty fragment while `size > 0` and the dequeue exchange slot is already
empty, or (3) `closeSink` receives a non-empty fragment while the dequeue
exchange slot is already occupied; in all other cases no exception escapes,
and on the `closeSink` non-error path with an empty slot the given fragment
is stored in the slot (a no-op when the fragment is itself empty). -/
theorem audioQueue_raises_iff (q : AudioQueue) (arg : Option Nat) :
    ((∃ e, q.enqueue arg = Except.error e) ↔
      arg = none ∧ q.myFirstFragmentForEnqueue = none) ∧
    ((∃ e, q.dequeue arg = Except.error e) ↔
      arg = none ∧ q.mySize ≠ 0 ∧ q.myFirstFragmentForDequeue = none) ∧
    ((∃ e, q.closeSink arg = Except.error e) ↔
      arg ≠ none ∧ q.myFirstFragmentForDequeue ≠ none) ∧
    (q.myFirstFragmentForDequeue = none →
      q.closeSink arg = Except.ok { q with myFirstFragmentForDequeue := arg }) := by
  refine ⟨?_, ?_, ?_, ?_⟩
  · cases arg with
    | none =>
      cases hslot : q.myFirstFragmentForEnqueue with
      | none => simp [AudioQueue.enqueue, hslot]
      | some nf => simp [AudioQueue.enqueue, hslot]
    | some f =>
      by_cases hlt : q.mySize < q.myFragmentQueue.length % 65536
      · rw [enqueue_some_notfull_eq q f hlt]
        simp
      · rw [enqueue_some_full_eq q f hlt]
        simp
  · by_cases hz : q.mySize = 0
    · rw [dequeue_zero q arg hz]
      simp [hz]
    · cases arg with
      | none =>
        cases hslot : q.myFirstFragmentForDequeue with
        | none => simp [AudioQueue.dequeue, hz, hslot]
        | some f0 =>
          rw [dequeue_pos_none q f0 hz hslot]
          simp [hz, hslot]
      | some f =>
        rw [dequeue_pos_some q f hz]
        simp
  · cases arg with
    | none =>
      cases hslot : q.myFirstFragmentForDequeue with
      | none => simp [AudioQueue.closeSink, hslot]
      | some f0 => simp [AudioQueue.closeSink, hslot]
    | some f =>
      cases hslot : q.myFirstFragmentForDequeue with
      | none => simp [AudioQueue.closeSink, hslot]
      | some f0 => simp [AudioQueue.closeSink, hslot]
  · intro hslot
    simp [AudioQueue.closeSink, hslot]

/-- A fresh queue whose consumer already consumed its bootstrap fragment:
the dequeue exchange slot is empty. -/
def qSlotFree : AudioQueue :=
  { AudioQueue.init 2 3 false with myFirstFragmentForDequeue := none }

/-- Witness for C7: returning fragment 9 through `closeSink` on a queue with
an empty dequeue exchange slot succeeds and stores the fragment there. -/
theorem audioQueue_raises_iff_witness :
    qSlotFree.closeSink (some 9) =
      Except.ok { qSlotFree with myFirstFragmentForDequeue := some 9 } :=
  (audioQueue_raises_iff qSlotFree (some 9)).2.2.2 rfl

/-- The queue-state components the spec lists as observable through
`enqueue`: queue slots, size, head index, and the two exchange slots. -/
def obsState (q : AudioQueue) : List Nat × Nat × Nat × Option Nat × Option Nat :=
  (q.myFragmentQueue, q.mySize, q.myNextFragment,
    q.myFirstFragmentForEnqueue, q.myFirstFragmentForDequeue)

/-- C8: `ignoreOverflows` is logging-only — for every queue state, every
argument and every flag value, `enqueue` returns the same fragment and
produces the same queue state (slots, size, head, exchange slots) whether
overflow notifications are suppressed or not; only the overflow-logger
invocation count can differ. -/
theorem audioQueue_ignoreOverflows_frame (q : AudioQueue) (arg : Option Nat) (b : Bool) :
    Except.map (fun p => (p.1, obsState p.2)) ((q.ignoreOverflows b).enqueue arg) =
      Except.map (fun p => (p.1, obsState p.2)) (q.enqueue arg) := by
  cases arg with
  | none =>
    cases hslot : q.myFirstFragmentForEnqueue with
    | none => simp [AudioQueue.enqueue, AudioQueue.ignoreOverflows, hslot]
    | some nf =>
      simp [AudioQueue.enqueue, AudioQueue.ignoreOverflows, hslot, obsState, Except.map]
  | some f =>
    by_cases hlt : q.mySize < q.myFragmentQueue.length % 65536 <;>
      simp [AudioQueue.enqueue, AudioQueue.ignoreOverflows, hlt, obsState, Except.map]

/-- C10: overflow logging is suppressed by default — a freshly constructed
queue has the ignore-overflows flag set to `true`, and along every sequence
of `enqueue` / `dequeue` / `closeSink` calls (in particular every sequence of
enqueue calls) with no intervening `ignoreOverflows false` call, the flag
stays `true` and the overflow logger is never invoked, even though overflow
drops still occur. -/
theorem audioQueue_default_no_overflow_log (fragmentSize capacity : Nat)
    (isStereo : Bool) (q : AudioQueue) (hcap : 0 < capacity) (hcap2 : capacity < 65536)
    (hreach : QueueReachable fragmentSize capacity isStereo q) :
    (AudioQueue.init fragmentSize capacity isStereo).myIgnoreOverflows = true ∧
      q.myIgnoreOverflows = true ∧ q.overflowLogCount = 0 := by
  have hinv := queueInv_reachable fragmentSize capacity isStereo q hcap hcap2 hreach
  exact ⟨rfl, hinv.hflag, hinv.hlog⟩

/-- The capacity-1 queue after enqueueing fragments 5 and then 6: the second
enqueue overflowed (dropping fragment 5), yet nothing was logged. -/
def qOverflowed : AudioQueue :=
  { AudioQueue.init 1 1 false with myFragmentQueue := [6], mySize := 1 }

/-- Witness for C10: the state `qOverflowed` is reached from a fresh
capacity-1 queue by two enqueues, the second of which drops a fragment;
the flag is still `true` and the logger was never invoked. -/
theorem audioQueue_default_no_overflow_log_witness :
    (AudioQueue.init 1 1 false).myIgnoreOverflows = true ∧
      qOverflowed.myIgnoreOverflows = true ∧ qOverflowed.overflowLogCount = 0 :=
  audioQueue_default_no_overflow_log 1 1 false qOverflowed (by decide) (by decide)
    (Relation.ReflTransGen.tail
      (Relation.ReflTransGen.single (QueueStep.enq _ (some 5) 0
        { AudioQueue.init 1 1 false with myFragmentQueue := [5], mySize := 1 } rfl))
      (QueueStep.enq _ (some 6) 5 qOverflowed rfl))
